import Mathlib

/-!
# Verification of the 10101 DLC Trade Lifecycle Coordinator

A shallow embedding of `coordinator/src/dlc_protocol.rs`,
`coordinator/src/db/trade_params.rs` and
`coordinator/src/orderbook/db/orders.rs`, together with models of the
persistent-store operations that the executor calls (those live outside the
sources at hand and are modelled from the specification, §4.2).

Conventions of the embedding:
* byte values are `Nat` with an explicit `< 256` bound;
* `f32` quantities are idealised as exact rationals (`ℚ`); the claims
  settled here do not depend on binary floating-point rounding;
* `i64`/`u64` casts are made explicit (`% 2^64`);
* fallible database operations return `Option`/`Except`, and a SQL
  transaction is a function returning `Except DbError Db` — an error leaves
  the original state untouched (rollback).
-/

namespace TenTenOne

/-! ## Protocol identifier and reference encoding

From `impl From<ProtocolId> for ReferenceId` and
`impl TryFrom<ReferenceId> for ProtocolId` in `dlc_protocol.rs`.
A `ProtocolId` wraps a UUID, i.e. 16 raw bytes. -/

/-- A UUID: exactly 16 bytes. Mirrors `uuid::Uuid` as used by `ProtocolId`. -/
structure ProtocolId where
  bytes : List Nat
  len16 : bytes.length = 16
  lt256 : ∀ b ∈ bytes, b < 256

instance : DecidableEq ProtocolId := fun a b =>
  if h : a.bytes = b.bytes then
    Decidable.isTrue (by cases a; cases b; simpa using h)
  else
    Decidable.isFalse (by intro hh; exact h (congrArg ProtocolId.bytes hh))

/-- ASCII code of the lowercase hex digit of `n < 16`
(mirrors `hex::encode`, which emits lowercase). -/
def hexDigitChar (n : Nat) : Nat :=
  if n < 10 then 48 + n else 87 + n

/-- `hex::encode` on a byte list: each byte becomes two lowercase hex
ASCII characters, high nibble first. -/
def hexEncodeBytes : List Nat → List Nat
  | [] => []
  | b :: rest => hexDigitChar (b / 16) :: hexDigitChar (b % 16) :: hexEncodeBytes rest

/-- Value of a single hex ASCII character (mirrors `hex::decode`, which
accepts both lowercase and uppercase digits). -/
def hexDigitVal (c : Nat) : Option Nat :=
  if 48 ≤ c ∧ c ≤ 57 then some (c - 48)
  else if 97 ≤ c ∧ c ≤ 102 then some (c - 87)
  else if 65 ≤ c ∧ c ≤ 70 then some (c - 55)
  else none

/-- `hex::decode`: consume the characters two at a time; fails on an odd
length or a non-hex character. -/
def hexDecodeBytes : List Nat → Option (List Nat)
  | [] => some []
  | [_] => none
  | c₁ :: c₂ :: rest =>
    match hexDigitVal c₁, hexDigitVal c₂, hexDecodeBytes rest with
    | some hi, some lo, some bs => some ((16 * hi + lo) :: bs)
    | _, _, _ => none

/-- `impl From<ProtocolId> for ReferenceId`: the 32-byte reference is the
lowercase hex of the 16 raw UUID bytes, as ASCII. -/
def referenceIdOfProtocolId (x : ProtocolId) : List Nat :=
  hexEncodeBytes x.bytes

/-- `impl TryFrom<ReferenceId> for ProtocolId`:
`from_utf8` (the reference must be valid ASCII/UTF-8; hex digits are all
below 128), then `hex::decode`, then `Uuid::from_slice` (needs 16 bytes). -/
def protocolIdOfReferenceId (r : List Nat) : Option ProtocolId :=
  if _h : (∀ c ∈ r, c < 128) then
    match hexDecodeBytes r with
    | none => none
    | some bs =>
      if h16 : bs.length = 16 then
        -- decoded values are `u8` in the source; the bound check is the typing
        if h256 : (∀ b ∈ bs, b < 256) then some ⟨bs, h16, h256⟩ else none
      else none
  else none

/-! ## Executor data model

From `dlc_protocol.rs`. Opaque identifiers (public keys, contract ids,
channel ids, contract symbols) are modelled as `Nat`; `f32` fields are
idealised as exact rationals. -/

/-- `bitcoin::secp256k1::PublicKey`, opaque here. -/
abbrev PubKey := Nat

/-- `dlc_manager::ContractId`, opaque here. -/
abbrev ContractId := Nat

/-- `DlcChannelId`, opaque here. -/
abbrev DlcChannelId := Nat

/-- `ContractSymbol`, opaque here. -/
abbrev ContractSymbol := Nat

/-- `trade::Direction`. Modelled from the spec: the `trade` crate root that
declares it is not among the sources; the spec fixes
`direction ∈ {Long, Short}`. -/
inductive Direction
  | Long
  | Short
deriving DecidableEq

/-- `TradeParams` from `dlc_protocol.rs`. -/
structure TradeParams where
  protocol_id : ProtocolId
  trader : PubKey
  quantity : ℚ
  leverage : ℚ
  average_price : ℚ
  direction : Direction
deriving DecidableEq

/-- `DlcProtocolState` from `dlc_protocol.rs`. -/
inductive DlcProtocolState
  | Pending
  | Success
  | Failed
deriving DecidableEq

/-- `DlcProtocolType` from `dlc_protocol.rs`. -/
inductive DlcProtocolType
  | Open (trade_params : TradeParams)
  | Renew (trade_params : TradeParams)
  | Settle (trade_params : TradeParams)
  | Close (trader : PubKey)
  | ForceClose (trader : PubKey)
  | Rollover (trader : PubKey)
deriving DecidableEq

/-- `DlcProtocolType::get_trader_pubkey`. -/
def DlcProtocolType.get_trader_pubkey : DlcProtocolType → PubKey
  | .Open tp => tp.trader
  | .Renew tp => tp.trader
  | .Settle tp => tp.trader
  | .Close trader => trader
  | .ForceClose trader => trader
  | .Rollover trader => trader

/-- Whether the protocol type carries trade params (`Open | Renew | Settle`):
the trade-bearing protocol types. -/
def DlcProtocolType.trade_bearing : DlcProtocolType → Bool
  | .Open _ | .Renew _ | .Settle _ => true
  | _ => false

/-- `DlcProtocol` from `dlc_protocol.rs`. -/
structure DlcProtocol where
  id : ProtocolId
  timestamp : Nat
  channel_id : DlcChannelId
  contract_id : ContractId
  trader : PubKey
  protocol_state : DlcProtocolState
  protocol_type : DlcProtocolType
deriving DecidableEq

/-- Modelled from the spec (§3): the position-state machine
`{Proposed, Open, Closing{closing_price}, Closed, Rollover, Failed}`;
the defining module is not among the sources. -/
inductive PositionState
  | Proposed
  | Open
  | Closing (closing_price : ℚ)
  | Closed
  | Rollover
  | Failed
deriving DecidableEq

/-- Modelled from the spec (§3): the `Position` row, with the attributes
the executor reads and writes. Margins are `i64` in the schema, hence `ℤ`. -/
structure Position where
  id : Nat
  trader : PubKey
  contract_symbol : ContractSymbol
  average_entry_price : ℚ
  quantity : ℚ
  trader_margin : ℤ
  coordinator_margin : ℤ
  position_state : PositionState
  pnl : Option ℤ
deriving DecidableEq

/-- `NewTrade` (`crate::trade::models::NewTrade`) as constructed by the
executor; field list read off the construction sites in `dlc_protocol.rs`. -/
structure NewTrade where
  position_id : Nat
  contract_symbol : ContractSymbol
  trader_pubkey : PubKey
  quantity : ℚ
  trader_leverage : ℚ
  coordinator_margin : ℤ
  trader_direction : Direction
  average_price : ℚ
  dlc_expiry_timestamp : Option Nat
deriving DecidableEq

/-- The relational store the executor writes: protocols, pending trade
params, positions, trades (spec §3). -/
structure Db where
  protocols : List DlcProtocol
  trade_params : List TradeParams
  positions : List Position
  trades : List NewTrade
deriving DecidableEq

def Db.empty : Db := ⟨[], [], [], []⟩

/-- The diesel error values the executor produces or propagates. -/
inductive DbError
  | RollbackTransaction
  | NotFound
  | UniqueViolation
deriving DecidableEq

/-- `InternalPositionUpdateMessage::NewTrade`, the message broadcast on the
position feed after a finalize commits. -/
structure NewTradeMsg where
  quantity : ℚ
  average_entry_price : ℚ
deriving DecidableEq

/-! ## Persistent-store operations

`db::dlc_protocols`, `db::positions` and `db::trades` are not among the
sources; they are modelled from the specification (§4.2).
`db::trade_params` is translated from `coordinator/src/db/trade_params.rs`. -/

/-- Modelled from the spec: `get_protocol(id) → Protocol` — reads by id. -/
def get_dlc_protocol (db : Db) (protocol_id : ProtocolId) : Option DlcProtocol :=
  db.protocols.find? (fun p => p.id = protocol_id)

/-- Modelled from the spec: `create_protocol(id, previous_id?, contract_id,
channel_id, type, trader_pubkey)` — inserts a `Pending` Protocol; fails if
`id` already exists. (`previous_id` is persisted but never read back by the
executor, so it is not carried in the model.) -/
def dlc_protocols_create (db : Db) (protocol_id : ProtocolId)
    (_previous_protocol_id : Option ProtocolId) (contract_id : ContractId)
    (channel_id : DlcChannelId) (protocol_type : DlcProtocolType)
    (trader : PubKey) : Except DbError Db :=
  if db.protocols.any (fun p => p.id = protocol_id) then
    .error .UniqueViolation
  else
    .ok { db with
      protocols := db.protocols ++
        [{ id := protocol_id, timestamp := 0, channel_id := channel_id,
           contract_id := contract_id, trader := trader,
           protocol_state := .Pending, protocol_type := protocol_type }] }

/-- Modelled from the spec: `set_state_to_success(id, contract_id,
channel_id)` — atomically updates the Protocol to `Success`, setting the
final contract/channel identifiers. -/
def set_dlc_protocol_state_to_success (db : Db) (protocol_id : ProtocolId)
    (contract_id : ContractId) (channel_id : DlcChannelId) : Db :=
  { db with
    protocols := db.protocols.map fun p =>
      if p.id = protocol_id then
        { p with protocol_state := .Success, contract_id := contract_id,
                 channel_id := channel_id }
      else p }

/-- Modelled from the spec: `set_state_to_failed(id)` — atomically updates
the Protocol to `Failed`. -/
def set_dlc_protocol_state_to_failed (db : Db) (protocol_id : ProtocolId) : Db :=
  { db with
    protocols := db.protocols.map fun p =>
      if p.id = protocol_id then { p with protocol_state := .Failed } else p }

/-- `db::trade_params::insert` (from `db/trade_params.rs`): inserts the row
`(protocol_id, trader_pubkey, quantity, leverage, average_price,
direction)`. -/
def trade_params_insert (db : Db) (protocol_id : ProtocolId)
    (params : TradeParams) : Db :=
  { db with trade_params := db.trade_params ++ [{ params with protocol_id := protocol_id }] }

/-- `db::trade_params::delete` (from `db/trade_params.rs`): deletes the rows
of the given protocol id. -/
def trade_params_delete (db : Db) (protocol_id : ProtocolId) : Db :=
  { db with trade_params := db.trade_params.filter (fun r => ¬ r.protocol_id = protocol_id) }

/-- Modelled from the spec: `positions.update_proposed_position(trader,
new_state)` — transitions the unique `Proposed` position of `trader` to
`new_state`, returning the updated row; fails (`none`) if none exists. -/
def update_proposed_position (db : Db) (trader : PubKey)
    (new_state : PositionState) : Option (Position × Db) :=
  match db.positions.find? (fun p => p.trader = trader ∧ p.position_state = .Proposed) with
  | none => none
  | some p =>
    some ({ p with position_state := new_state },
      { db with
        positions := db.positions.map fun q =>
          if q.trader = trader ∧ q.position_state = .Proposed then
            { q with position_state := new_state }
          else q })

/-- Whether two position states have the same head constructor: the lookup
by state ignores the `closing_price` payload ("The price doesn't matter
here", `dlc_protocol.rs`). -/
def position_state_kind_eq : PositionState → PositionState → Bool
  | .Proposed, .Proposed => true
  | .Open, .Open => true
  | .Closing _, .Closing _ => true
  | .Closed, .Closed => true
  | .Rollover, .Rollover => true
  | .Failed, .Failed => true
  | _, _ => false

/-- Modelled from the spec: `positions.get_position_by_trader(trader,
allowed_states)` — returns the trader's position whose state matches one of
the allowed states (state matching by constructor, payload ignored). -/
def get_position_by_trader (db : Db) (trader : PubKey)
    (states : List PositionState) : Option Position :=
  db.positions.find? (fun p =>
    decide (p.trader = trader) &&
      states.any (fun s => position_state_kind_eq p.position_state s))

/-- Modelled from the spec: `positions.set_position_to_closed_with_pnl
(position_id, pnl)` — the terminal transition, recording the realised pnl. -/
def set_position_to_closed_with_pnl (db : Db) (position_id : Nat) (pnl : ℤ) : Db :=
  { db with
    positions := db.positions.map fun p =>
      if p.id = position_id then
        { p with position_state := .Closed, pnl := some pnl }
      else p }

/-- Modelled from the spec: `positions.set_position_to_open(trader,
contract_id)` — the post-rollover transition of the trader's `Rollover`
position back to `Open`. -/
def set_position_to_open (db : Db) (trader : PubKey)
    (_contract_id : ContractId) : Db :=
  { db with
    positions := db.positions.map fun p =>
      if p.trader = trader ∧ p.position_state = .Rollover then
        { p with position_state := .Open }
      else p }

/-- Modelled from the spec: `trades.insert(NewTrade)` — append-only. -/
def trades_insert (db : Db) (new_trade : NewTrade) : Db :=
  { db with trades := db.trades ++ [new_trade] }

/-! ## The DLC protocol executor

Translated from `DlcProtocolExecutor` in `dlc_protocol.rs`. The shared cfd
formulas (`trade::cfd::calculate_margin`, `trade::cfd::calculate_pnl`) and
`crate::trade::coordinator_leverage_for_trade` live in modules that are not
among the sources; they are kept fully abstract, bundled in `CfdFns`, and
every theorem below is universally quantified over them. -/

/-- The abstract imported functions of the executor:
`calculate_margin(price, quantity, leverage) → u64`,
`coordinator_leverage_for_trade(trader) → Result<f32>`,
`calculate_pnl(entry, exit, quantity, direction, margin_long u64,
margin_short u64) → Result<i64>`. -/
structure CfdFns where
  calculate_margin : ℚ → ℚ → ℚ → Nat
  coordinator_leverage_for_trade : PubKey → Except Unit ℚ
  calculate_pnl : ℚ → ℚ → ℚ → Direction → Nat → Nat → Except Unit ℤ

/-- The Rust `as u64` cast of an `i64` value (two's complement). -/
def i64_to_u64 (m : ℤ) : Nat := (m % (2 : ℤ) ^ 64).toNat

/-- The Rust `as i64` cast of a `u64` value (two's complement): wraps to a
negative value for inputs at or above `2^63`. -/
def u64_to_i64 (n : Nat) : ℤ :=
  if n % 2 ^ 64 < 2 ^ 63 then ((n % 2 ^ 64 : ℕ) : ℤ)
  else ((n % 2 ^ 64 : ℕ) : ℤ) - 2 ^ 64

/-- `DlcProtocolExecutor::start_dlc_protocol`: in one transaction, create
the `Pending` protocol row and, for the trade-bearing types
(`Open | Renew | Settle`), insert the pending trade params. An error rolls
the whole transaction back (the caller sees the original `Db`). -/
def start_dlc_protocol (protocol_id : ProtocolId)
    (previous_protocol_id : Option ProtocolId) (contract_id : ContractId)
    (channel_id : DlcChannelId) (protocol_type : DlcProtocolType)
    (db : Db) : Except DbError Db :=
  match dlc_protocols_create db protocol_id previous_protocol_id contract_id
      channel_id protocol_type protocol_type.get_trader_pubkey with
  | .error e => .error e
  | .ok db1 =>
    match protocol_type with
    | .Open trade_params | .Renew trade_params | .Settle trade_params =>
      .ok (trade_params_insert db1 protocol_id trade_params)
    | _ => .ok db1

/-- `DlcProtocolExecutor::fail_dlc_protocol`: sets the protocol state to
`Failed` and nothing else. -/
def fail_dlc_protocol (protocol_id : ProtocolId) (db : Db) : Db :=
  set_dlc_protocol_state_to_failed db protocol_id

/-- `DlcProtocolExecutor::finish_open_trade_dlc_protocol`: set the protocol
to `Success` with the new contract id, move the trader's `Proposed` position
to `Open`, insert the `NewTrade` with
`coordinator_margin = calculate_margin(average_price, quantity,
coordinator_leverage_for_trade(trader)) as i64` (a wrapping u64 to i64
cast, `u64_to_i64`), delete the pending trade params. -/
def finish_open_trade_dlc_protocol (F : CfdFns) (trade_params : TradeParams)
    (protocol_id : ProtocolId) (contract_id : ContractId)
    (channel_id : DlcChannelId) (db : Db) : Except DbError Db :=
  let db1 := set_dlc_protocol_state_to_success db protocol_id contract_id channel_id
  match update_proposed_position db1 trade_params.trader PositionState.Open with
  | none => .error .NotFound
  | some (position, db2) =>
    match F.coordinator_leverage_for_trade trade_params.trader with
    | .error _ => .error .RollbackTransaction
    | .ok leverage =>
      let coordinator_margin :=
        F.calculate_margin trade_params.average_price trade_params.quantity leverage
      let new_trade : NewTrade :=
        { position_id := position.id
          contract_symbol := position.contract_symbol
          trader_pubkey := trade_params.trader
          quantity := trade_params.quantity
          trader_leverage := trade_params.leverage
          coordinator_margin := u64_to_i64 coordinator_margin
          trader_direction := trade_params.direction
          average_price := trade_params.average_price
          dlc_expiry_timestamp := none }
      let db3 := trades_insert db2 new_trade
      .ok (trade_params_delete db3 protocol_id)

/-- `DlcProtocolExecutor::finish_close_trade_dlc_protocol`: set the protocol
to `Success` with the settled contract id, find the trader's `Closing`
position (price ignored), compute the pnl with the initial margins paired by
the trade direction, close the position with that pnl, insert the
`NewTrade`, delete the pending trade params. -/
def finish_close_trade_dlc_protocol (F : CfdFns) (trade_params : TradeParams)
    (protocol_id : ProtocolId) (settled_contract : ContractId)
    (channel_id : DlcChannelId) (db : Db) : Except DbError Db :=
  let db1 := set_dlc_protocol_state_to_success db protocol_id settled_contract channel_id
  match get_position_by_trader db1 trade_params.trader
      [PositionState.Closing 0] with
  | none => .error .RollbackTransaction
  | some position =>
    let margins : ℤ × ℤ :=
      match trade_params.direction with
      | .Long => (position.trader_margin, position.coordinator_margin)
      | .Short => (position.coordinator_margin, position.trader_margin)
    match F.calculate_pnl position.average_entry_price trade_params.average_price
        trade_params.quantity trade_params.direction
        (i64_to_u64 margins.1) (i64_to_u64 margins.2) with
    | .error _ => .error .RollbackTransaction
    | .ok pnl =>
      let db2 := set_position_to_closed_with_pnl db1 position.id pnl
      match F.coordinator_leverage_for_trade trade_params.trader with
      | .error _ => .error .RollbackTransaction
      | .ok leverage =>
        let coordinator_margin :=
          F.calculate_margin trade_params.average_price trade_params.quantity leverage
        let new_trade : NewTrade :=
          { position_id := position.id
            contract_symbol := position.contract_symbol
            trader_pubkey := trade_params.trader
            quantity := trade_params.quantity
            trader_leverage := trade_params.leverage
            coordinator_margin := u64_to_i64 coordinator_margin
            trader_direction := trade_params.direction
            average_price := trade_params.average_price
            dlc_expiry_timestamp := none }
        let db3 := trades_insert db2 new_trade
        .ok (trade_params_delete db3 protocol_id)

/-- `DlcProtocolExecutor::finish_rollover_dlc_protocol`: set the protocol to
`Success` with the new contract id and transition the trader's position back
to `Open`; no trade row. -/
def finish_rollover_dlc_protocol (trader : PubKey) (protocol_id : ProtocolId)
    (contract_id : ContractId) (channel_id : DlcChannelId) (db : Db) :
    Except DbError Db :=
  let db1 := set_dlc_protocol_state_to_success db protocol_id contract_id channel_id
  .ok (set_position_to_open db1 trader contract_id)

/-- The outcome of `finish_dlc_protocol`: the returned `Result`, the domain
state after the call (unchanged when the transaction rolled back), the
messages attempted on the position feed after commit, and whether the
`debug_assert!(false)` for unexpected protocol types fired. -/
structure FinishOutcome where
  result : Except DbError Unit
  db : Db
  msgs : List NewTradeMsg
  debug_assertion_failed : Bool

/-- The closure passed to `conn.transaction` in
`DlcProtocolExecutor::finish_dlc_protocol`, together with the
`debug_assert` flag: dispatch on the stored protocol type. -/
def finish_dlc_protocol_txn (F : CfdFns) (protocol_id : ProtocolId)
    (trader_id : PubKey) (contract_id : Option ContractId)
    (channel_id : DlcChannelId) (dlc_protocol : DlcProtocol) (db : Db) :
    Except DbError Db × Bool :=
  match dlc_protocol.protocol_type with
  | .Open trade_params | .Renew trade_params =>
    (match contract_id with
     | none => .error .RollbackTransaction
     | some cid =>
       finish_open_trade_dlc_protocol F trade_params protocol_id cid channel_id db,
     false)
  | .Settle trade_params =>
    -- the settled contract does not get a new contract id: reuse the
    -- contract id stored on the protocol at start
    (finish_close_trade_dlc_protocol F trade_params protocol_id
      dlc_protocol.contract_id channel_id db, false)
  | .Rollover _ =>
    (match contract_id with
     | none => .error .RollbackTransaction
     | some cid =>
       finish_rollover_dlc_protocol trader_id protocol_id cid channel_id db,
     false)
  | .Close _ | .ForceClose _ =>
    -- `debug_assert!(false, "Finishing unexpected dlc protocol types")`
    (.ok db, true)

/-- The message sent on the position feed after the transaction commits:
for the trade-bearing types, a `NewTrade` with the quantity as seen by the
coordinator (positive when the trader sold). -/
def post_commit_msgs (dlc_protocol : DlcProtocol) : List NewTradeMsg :=
  match dlc_protocol.protocol_type with
  | .Open trade_params | .Renew trade_params | .Settle trade_params =>
    [{ quantity :=
         if trade_params.direction = Direction.Short then
           trade_params.quantity
         else
           -- reflect the quantity as seen by the coordinator
           trade_params.quantity * (-1)
       average_entry_price := trade_params.average_price }]
  | _ => []

/-- `DlcProtocolExecutor::finish_dlc_protocol`. The whole finalize runs in
one transaction: on an inner error the original `db` is kept (rollback) and
the error is returned. After a commit, the post-commit messages are sent;
the send result is only logged (`send_ok` influences nothing). -/
def finish_dlc_protocol (F : CfdFns) (protocol_id : ProtocolId)
    (trader_id : PubKey) (contract_id : Option ContractId)
    (channel_id : DlcChannelId) (_send_ok : Bool) (db : Db) : FinishOutcome :=
  match get_dlc_protocol db protocol_id with
  | none => { result := .error .NotFound, db := db, msgs := [], debug_assertion_failed := false }
  | some dlc_protocol =>
    match finish_dlc_protocol_txn F protocol_id trader_id contract_id
        channel_id dlc_protocol db with
    | (.error e, flag) =>
      { result := .error e, db := db, msgs := [], debug_assertion_failed := flag }
    | (.ok db2, flag) =>
      { result := .ok (), db := db2, msgs := post_commit_msgs dlc_protocol,
        debug_assertion_failed := flag }

/-! ## Orderbook order intake

From `coordinator/src/orderbook/db/orders.rs`. `rust_decimal::Decimal` is a
scaled integer (`mantissa / 10^scale`); `round_dp` rounds to the given
number of decimal places with banker's rounding (`MidpointNearestEven`),
the library default. The `f32` narrowing (`to_f32` on store,
`Decimal::from_f32` on load) is idealised as the exact rational value. -/

/-- `rust_decimal::Decimal`: `mantissa / 10^scale`. (The library also bounds
the mantissa to 96 bits and the scale to 28; those bounds play no role in
the rounding facts proved here.) -/
structure Decimal where
  mantissa : ℤ
  scale : ℕ
deriving DecidableEq

/-- The rational value of a `Decimal`. -/
def Decimal.val (d : Decimal) : ℚ := (d.mantissa : ℚ) / (10 : ℚ) ^ d.scale

/-- Round `n / k` to the nearest integer, ties to even (banker's
rounding), for naturals. -/
def bankersRoundDiv (n k : ℕ) : ℕ :=
  let q := n / k
  let r := n % k
  if 2 * r < k then q
  else if k < 2 * r then q + 1
  else if q % 2 = 0 then q else q + 1

/-- Banker's rounding of `n / k` for an integer `n` (rounding applied to the
magnitude, as `rust_decimal` does). -/
def intBankersRoundDiv (n : ℤ) (k : ℕ) : ℤ :=
  if 0 ≤ n then (bankersRoundDiv n.toNat k : ℤ)
  else -(bankersRoundDiv (-n).toNat k : ℤ)

/-- `Decimal::round_dp(dp)`: unchanged when the scale is already at most
`dp`, otherwise drop `scale - dp` decimal digits with banker's rounding. -/
def Decimal.round_dp (d : Decimal) (dp : ℕ) : Decimal :=
  if d.scale ≤ dp then d
  else ⟨intBankersRoundDiv d.mantissa (10 ^ (d.scale - dp)), dp⟩

/-- `OrderType` of the orderbook (`Market | Limit`). -/
inductive OrderType
  | Market
  | Limit
deriving DecidableEq

/-- `orderbook::routes::NewOrder`, the submitted order. Modelled from the
spec (§6): JSON body `{price, quantity, trader_id, direction, order_type}`
with decimal price and quantity (the `routes` module is not among the
sources). `trader_id` is opaque. -/
structure OrderbookNewOrder where
  price : Decimal
  quantity : Decimal
  trader_id : Nat
  direction : Direction
  order_type : OrderType

/-- The insertable `NewOrder` row of `orders.rs` (`price`/`quantity` are
`f32` columns, idealised as exact rationals). -/
structure NewOrder where
  price : ℚ
  trader_id : Nat
  taken : Bool
  direction : Direction
  quantity : ℚ
  order_type : OrderType
deriving DecidableEq

/-- `impl From<OrderbookNewOrder> for NewOrder` in `orders.rs`:
`price.round_dp(2).to_f32()`, `taken: false`,
`quantity.round_dp(2).to_f32()`. -/
def NewOrder.of_orderbook (value : OrderbookNewOrder) : NewOrder :=
  { price := (value.price.round_dp 2).val
    trader_id := value.trader_id
    taken := false
    direction := value.direction
    quantity := (value.quantity.round_dp 2).val
    order_type := value.order_type }

/-- The `Queryable` `Order` row of `orders.rs` (serial `id`,
`maker_id`). -/
structure OrderRow where
  id : Nat
  price : ℚ
  maker_id : Nat
  taken : Bool
  direction : Direction
  quantity : ℚ
  order_type : OrderType
deriving DecidableEq

/-- `impl From<Order> for OrderbookOrder` in `orders.rs`
(`Decimal::from_f32` idealised as the exact value). -/
structure OrderbookOrder where
  id : Nat
  price : ℚ
  trader_id : Nat
  taken : Bool
  direction : Direction
  quantity : ℚ
  order_type : OrderType
deriving DecidableEq

def OrderbookOrder.of_row (r : OrderRow) : OrderbookOrder :=
  { id := r.id, price := r.price, trader_id := r.maker_id, taken := r.taken,
    direction := r.direction, quantity := r.quantity, order_type := r.order_type }

/-- `orders::insert`: `insert_into(orders).values(NewOrder::from(order))
.get_result(conn)` — persists the converted row (the serial id is modelled
as the next index) and returns it converted back. -/
def orders_insert (orders : List OrderRow) (order : OrderbookNewOrder) :
    List OrderRow × OrderbookOrder :=
  let n := NewOrder.of_orderbook order
  let row : OrderRow :=
    { id := orders.length, price := n.price, maker_id := n.trader_id,
      taken := n.taken, direction := n.direction, quantity := n.quantity,
      order_type := n.order_type }
  (orders ++ [row], OrderbookOrder.of_row row)

/-! ## Reachable states and the pending trade-params invariant

The executor's operations are the only writers of protocol and trade-params
rows (spec §5); per protocol id, `start → finish` or `start → fail` is
strictly ordered, so `fail` is only invoked while the protocol outcome is
unrecorded (`Pending`). -/

/-- The states reachable from the empty store through the executor's
operations. The `fail` step carries the §5 ordering assumption (the failed
protocol is still `Pending`). -/
inductive Reachable (F : CfdFns) : Db → Prop
  | init : Reachable F Db.empty
  | start {db db' : Db} (protocol_id : ProtocolId)
      (previous_protocol_id : Option ProtocolId) (contract_id : ContractId)
      (channel_id : DlcChannelId) (protocol_type : DlcProtocolType) :
      Reachable F db →
      start_dlc_protocol protocol_id previous_protocol_id contract_id
        channel_id protocol_type db = .ok db' →
      Reachable F db'
  | fail {db : Db} (protocol_id : ProtocolId) :
      Reachable F db →
      (∃ p ∈ db.protocols, p.id = protocol_id ∧ p.protocol_state = .Pending) →
      Reachable F (fail_dlc_protocol protocol_id db)
  | finish {db : Db} (protocol_id : ProtocolId) (trader_id : PubKey)
      (contract_id : Option ContractId) (channel_id : DlcChannelId)
      (send_ok : Bool) :
      Reachable F db →
      Reachable F (finish_dlc_protocol F protocol_id trader_id contract_id
        channel_id send_ok db).db

/-- The store invariant relating pending trade params to protocol states:
protocol ids are unique, and a pending `TradeParams` row exists exactly for
a trade-bearing protocol that is `Pending` or `Failed` (a failed
trade-bearing protocol keeps its row for operator triage). -/
abbrev DbInvariant (db : Db) : Prop :=
  (db.protocols.map (·.id)).Nodup ∧
  ∀ pid : ProtocolId,
    (∃ r ∈ db.trade_params, r.protocol_id = pid) ↔
    (∃ p ∈ db.protocols, p.id = pid ∧ p.protocol_type.trade_bearing = true ∧
      (p.protocol_state = .Pending ∨ p.protocol_state = .Failed))

/-! ## Concrete fixtures

Closed instances used by the witness and counterexample theorems. -/

/-- A concrete protocol id (the nil UUID). -/
def pid0 : ProtocolId := ⟨List.replicate 16 0, by simp, by simp⟩

/-- A concrete instantiation of the abstract cfd functions. -/
def F0 : CfdFns :=
  { calculate_margin := fun _ _ _ => 42
    coordinator_leverage_for_trade := fun _ => .ok 2
    calculate_pnl := fun _ _ _ _ _ _ => .ok 7 }

/-- Concrete trade params: trader `1`, quantity `1000`, leverage `2`,
price `30000`, long. -/
def tp0 : TradeParams := ⟨pid0, 1, 1000, 2, 30000, .Long⟩

/-- A `Proposed` position of trader `1`. -/
def pos0 : Position := ⟨5, 1, 0, 29000, 1000, 111, 222, .Proposed, none⟩

/-- A `Pending` `Open` protocol over `tp0`. -/
def proto0 : DlcProtocol := ⟨pid0, 0, 9, 77, 1, .Pending, .Open tp0⟩

/-- The store right after `start_dlc_protocol` of an `Open` from empty. -/
def db_start0 : Db := ⟨[proto0], [tp0], [], []⟩

/-- A store ready to finish the `Open` protocol. -/
def db_open0 : Db := ⟨[proto0], [tp0], [pos0], []⟩

/-- `pos0` after the transition to `Open`. -/
def pos_open0 : Position := ⟨5, 1, 0, 29000, 1000, 111, 222, .Open, none⟩

/-- `proto0` after a successful finish with contract id `123`. -/
def proto_success0 : DlcProtocol := ⟨pid0, 0, 9, 123, 1, .Success, .Open tp0⟩

/-- The store after the success write and position transition of the
`Open` finalize (before trade insertion and params deletion). -/
def db_open_after0 : Db := ⟨[proto_success0], [tp0], [pos_open0], []⟩

/-- A `Pending` `Settle` protocol over `tp0`. -/
def proto_settle0 : DlcProtocol := ⟨pid0, 0, 9, 77, 1, .Pending, .Settle tp0⟩

/-- A `Closing` position of trader `1`. -/
def pos_closing0 : Position := ⟨5, 1, 0, 29000, 1000, 111, 222, .Closing 33000, none⟩

/-- A store ready to finish the `Settle` protocol. -/
def db_settle0 : Db := ⟨[proto_settle0], [tp0], [pos_closing0], []⟩

/-- A submitted order whose price and quantity have three decimal places
(`30000.555`). -/
def o0 : OrderbookNewOrder := ⟨⟨30000555, 3⟩, ⟨30000555, 3⟩, 7, .Long, .Limit⟩

/-- A `Pending` `Close` protocol. -/
def proto_close0 : DlcProtocol := ⟨pid0, 0, 9, 77, 1, .Pending, .Close 1⟩

/-- A store holding only the `Close` protocol. -/
def db_close0 : Db := ⟨[proto_close0], [], [], []⟩

/-- A `Pending` `Rollover` protocol. -/
def proto_roll0 : DlcProtocol := ⟨pid0, 0, 9, 77, 1, .Pending, .Rollover 1⟩

/-- A store holding only the `Rollover` protocol. -/
def db_roll0 : Db := ⟨[proto_roll0], [], [], []⟩

end TenTenOne

namespace TenTenOne

theorem hexDigitVal_hexDigitChar : ∀ n : Nat, n < 16 → hexDigitVal (hexDigitChar n) = some n := by
  decide

theorem hexDigitChar_range : ∀ n : Nat, n < 16 →
    (48 ≤ hexDigitChar n ∧ hexDigitChar n ≤ 57) ∨
    (97 ≤ hexDigitChar n ∧ hexDigitChar n ≤ 102) := by
  decide

theorem hexEncodeBytes_length (l : List Nat) :
    (hexEncodeBytes l).length = 2 * l.length := by
  induction l with
  | nil => rfl
  | cons b rest ih => simp [hexEncodeBytes, ih]; ring

theorem hexEncodeBytes_mem (l : List Nat) (hl : ∀ b ∈ l, b < 256) :
    ∀ c ∈ hexEncodeBytes l, (48 ≤ c ∧ c ≤ 57) ∨ (97 ≤ c ∧ c ≤ 102) := by
  induction l with
  | nil => intro c hc; simp [hexEncodeBytes] at hc
  | cons b rest ih =>
    intro c hc
    have hb : b < 256 := hl b (List.mem_cons_self b rest)
    simp only [hexEncodeBytes, List.mem_cons] at hc
    rcases hc with h | h | h
    · subst h; exact hexDigitChar_range (b / 16) (by omega)
    · subst h; exact hexDigitChar_range (b % 16) (Nat.mod_lt b (by omega))
    · exact ih (fun b hb => hl b (List.mem_cons_of_mem _ hb)) c h

theorem hexDecode_hexEncode (l : List Nat) (hl : ∀ b ∈ l, b < 256) :
    hexDecodeBytes (hexEncodeBytes l) = some l := by
  induction l with
  | nil => rfl
  | cons b rest ih =>
    have hb : b < 256 := hl b (List.mem_cons_self b rest)
    have h1 : b / 16 < 16 := by omega
    have h2 : b % 16 < 16 := Nat.mod_lt b (by omega)
    simp only [hexEncodeBytes, hexDecodeBytes,
      hexDigitVal_hexDigitChar _ h1, hexDigitVal_hexDigitChar _ h2,
      ih (fun b hb => hl b (List.mem_cons_of_mem _ hb))]
    congr 1
    congr 1
    omega

/-- C1: encoding a `ProtocolId` to a `ReferenceId` yields exactly 32 ASCII
bytes, each a lowercase hex digit (of the 16 raw UUID bytes), and decoding
the encoded reference returns the original `ProtocolId`. -/
theorem c1_protocol_id_roundtrip (x : ProtocolId) :
    (referenceIdOfProtocolId x).length = 32 ∧
    (∀ c ∈ referenceIdOfProtocolId x, (48 ≤ c ∧ c ≤ 57) ∨ (97 ≤ c ∧ c ≤ 102)) ∧
    protocolIdOfReferenceId (referenceIdOfProtocolId x) = some x := by
  obtain ⟨bytes, len16, lt256⟩ := x
  refine ⟨?_, ?_, ?_⟩
  · simp [referenceIdOfProtocolId, hexEncodeBytes_length, len16]
  · exact hexEncodeBytes_mem bytes lt256
  · have hascii : ∀ c ∈ hexEncodeBytes bytes, c < 128 := by
      intro c hc
      rcases hexEncodeBytes_mem bytes lt256 c hc with ⟨_, h⟩ | ⟨_, h⟩ <;> omega
    show protocolIdOfReferenceId (hexEncodeBytes bytes) = some ⟨bytes, len16, lt256⟩
    unfold protocolIdOfReferenceId
    rw [dif_pos hascii, hexDecode_hexEncode bytes lt256]
    simp [len16]
    exact lt256

end TenTenOne

namespace TenTenOne

theorem set_success_components (db : Db) (protocol_id : ProtocolId)
    (contract_id : ContractId) (channel_id : DlcChannelId) :
    (set_dlc_protocol_state_to_success db protocol_id contract_id channel_id).positions
        = db.positions ∧
    (set_dlc_protocol_state_to_success db protocol_id contract_id channel_id).trades
        = db.trades ∧
    (set_dlc_protocol_state_to_success db protocol_id contract_id channel_id).trade_params
        = db.trade_params :=
  ⟨rfl, rfl, rfl⟩

theorem set_success_protocols_spec (db : Db) (protocol_id : ProtocolId)
    (contract_id : ContractId) (channel_id : DlcChannelId) :
    ∀ p ∈ (set_dlc_protocol_state_to_success db protocol_id contract_id channel_id).protocols,
      (p.id = protocol_id →
        p.protocol_state = .Success ∧ p.contract_id = contract_id ∧
        p.channel_id = channel_id) ∧
      (p.id ≠ protocol_id → p ∈ db.protocols) := by
  intro p hp
  simp only [set_dlc_protocol_state_to_success, List.mem_map] at hp
  obtain ⟨q, hq, rfl⟩ := hp
  by_cases h : q.id = protocol_id <;> simp [h, hq]

theorem c8_fail_dlc_protocol_frame (protocol_id : ProtocolId) (db : Db) :
    (∀ p ∈ (fail_dlc_protocol protocol_id db).protocols,
      (p.id = protocol_id → p.protocol_state = .Failed) ∧
      (p.id ≠ protocol_id → p ∈ db.protocols)) ∧
    ((fail_dlc_protocol protocol_id db).protocols.map
        (fun p => (p.id, p.timestamp, p.channel_id, p.contract_id, p.trader,
          p.protocol_type)) =
      db.protocols.map
        (fun p => (p.id, p.timestamp, p.channel_id, p.contract_id, p.trader,
          p.protocol_type))) ∧
    (fail_dlc_protocol protocol_id db).positions = db.positions ∧
    (fail_dlc_protocol protocol_id db).trades = db.trades ∧
    (fail_dlc_protocol protocol_id db).trade_params = db.trade_params ∧
    fail_dlc_protocol protocol_id (fail_dlc_protocol protocol_id db) =
      fail_dlc_protocol protocol_id db := by
  refine ⟨?_, ?_, rfl, rfl, rfl, ?_⟩
  · intro p hp
    simp only [fail_dlc_protocol, set_dlc_protocol_state_to_failed,
      List.mem_map] at hp
    obtain ⟨q, hq, rfl⟩ := hp
    by_cases h : q.id = protocol_id <;> simp [h, hq]
  · simp only [fail_dlc_protocol, set_dlc_protocol_state_to_failed,
      List.map_map]
    apply List.map_congr_left
    intro q _
    by_cases h : q.id = protocol_id <;> simp [Function.comp, h]
  · simp only [fail_dlc_protocol, set_dlc_protocol_state_to_failed,
      List.map_map, Db.mk.injEq, and_true, true_and, and_self]
    apply List.map_congr_left
    intro q _
    by_cases h : q.id = protocol_id <;> simp [Function.comp, h]

theorem finish_error_keeps_db (F : CfdFns) (protocol_id : ProtocolId)
    (trader_id : PubKey) (contract_id : Option ContractId)
    (channel_id : DlcChannelId) (send_ok : Bool) (db : Db) (e : DbError)
    (h : (finish_dlc_protocol F protocol_id trader_id contract_id channel_id
      send_ok db).result = .error e) :
    (finish_dlc_protocol F protocol_id trader_id contract_id channel_id
      send_ok db).db = db ∧
    (finish_dlc_protocol F protocol_id trader_id contract_id channel_id
      send_ok db).msgs = [] := by
  cases hget : get_dlc_protocol db protocol_id with
  | none => constructor <;> simp [finish_dlc_protocol, hget]
  | some dlc =>
    rcases htxn : finish_dlc_protocol_txn F protocol_id trader_id contract_id
        channel_id dlc db with ⟨res, flag⟩
    cases res with
    | error e2 => constructor <;> simp [finish_dlc_protocol, hget, htxn]
    | ok db2 => simp [finish_dlc_protocol, hget, htxn] at h

/-- C5: failure semantics of the finalize. A missing contract id for
`Open`/`Renew`/`Rollover`, a missing `Proposed` position for `Open`/`Renew`,
a missing `Closing` position for `Settle`, and any other inner error all
make `finish_dlc_protocol` return the error with the store exactly as it
was — the protocol row still `Pending`, no trade row inserted, nothing
published — so a retry is safe. -/
theorem c5_error_rolls_back (F : CfdFns) (protocol_id : ProtocolId)
    (trader_id : PubKey) (contract_id : Option ContractId)
    (channel_id : DlcChannelId) (send_ok : Bool) (db : Db) (dlc : DlcProtocol)
    (hget : get_dlc_protocol db protocol_id = some dlc) :
    (((∃ tp, dlc.protocol_type = .Open tp ∨ dlc.protocol_type = .Renew tp) ∨
      (∃ t, dlc.protocol_type = .Rollover t)) →
      (finish_dlc_protocol F protocol_id trader_id none channel_id send_ok
        db).result = .error .RollbackTransaction) ∧
    (∀ tp c, (dlc.protocol_type = .Open tp ∨ dlc.protocol_type = .Renew tp) →
      update_proposed_position
        (set_dlc_protocol_state_to_success db protocol_id c channel_id)
        tp.trader .Open = none →
      (finish_dlc_protocol F protocol_id trader_id (some c) channel_id send_ok
        db).result = .error .NotFound) ∧
    (∀ tp, dlc.protocol_type = .Settle tp →
      get_position_by_trader
        (set_dlc_protocol_state_to_success db protocol_id dlc.contract_id
          channel_id) tp.trader [.Closing 0] = none →
      (finish_dlc_protocol F protocol_id trader_id contract_id channel_id
        send_ok db).result = .error .RollbackTransaction) ∧
    (∀ e, (finish_dlc_protocol F protocol_id trader_id contract_id channel_id
        send_ok db).result = .error e →
      (finish_dlc_protocol F protocol_id trader_id contract_id channel_id
        send_ok db).db = db ∧
      (finish_dlc_protocol F protocol_id trader_id contract_id channel_id
        send_ok db).msgs = [] ∧
      (∀ p ∈ (finish_dlc_protocol F protocol_id trader_id contract_id
        channel_id send_ok db).db.protocols, p ∈ db.protocols) ∧
      (finish_dlc_protocol F protocol_id trader_id contract_id channel_id
        send_ok db).db.trades = db.trades) := by
  refine ⟨?_, ?_, ?_, ?_⟩
  · rintro ((⟨tp, h | h⟩) | ⟨t, h⟩) <;>
      simp [finish_dlc_protocol, hget, finish_dlc_protocol_txn, h]
  · rintro tp c (h | h) hupd <;>
      simp [finish_dlc_protocol, hget, finish_dlc_protocol_txn, h,
        finish_open_trade_dlc_protocol, hupd]
  · rintro tp h hfind
    simp [finish_dlc_protocol, hget, finish_dlc_protocol_txn, h,
      finish_close_trade_dlc_protocol, hfind]
  · intro e he
    obtain ⟨hdb, hmsgs⟩ := finish_error_keeps_db F protocol_id trader_id
      contract_id channel_id send_ok db e he
    exact ⟨hdb, hmsgs, by rw [hdb]; intro p hp; exact hp, by rw [hdb]⟩

/-- Witness for C5: finishing the pending `Open` protocol over a store with
no `Proposed` position fails with `NotFound` and leaves the store
untouched. -/
theorem c5_witness :
    get_dlc_protocol db_start0 pid0 = some proto0 ∧
    (finish_dlc_protocol F0 pid0 1 (some 123) 9 true db_start0).result =
      .error .NotFound ∧
    (finish_dlc_protocol F0 pid0 1 (some 123) 9 true db_start0).db = db_start0 ∧
    (finish_dlc_protocol F0 pid0 1 (some 123) 9 true db_start0).msgs = [] := by
  refine ⟨rfl, rfl, ?_⟩
  have h := (c5_error_rolls_back F0 pid0 1 (some 123) 9 true db_start0 proto0
    rfl).2.2.2 DbError.NotFound rfl
  exact ⟨h.1, h.2.1⟩

/-- C9: finishing a protocol whose stored type is `Close` or `ForceClose`
returns `Ok` after a no-op transaction — store untouched, no message sent —
and the `debug_assert` flagging the logic bug fires. -/
theorem c9_close_force_close_noop (F : CfdFns) (protocol_id : ProtocolId)
    (trader_id : PubKey) (contract_id : Option ContractId)
    (channel_id : DlcChannelId) (send_ok : Bool) (db : Db)
    (dlc : DlcProtocol) (trader : PubKey)
    (hget : get_dlc_protocol db protocol_id = some dlc)
    (htype : dlc.protocol_type = .Close trader ∨
      dlc.protocol_type = .ForceClose trader) :
    finish_dlc_protocol F protocol_id trader_id contract_id channel_id send_ok db =
      { result := .ok (), db := db, msgs := [], debug_assertion_failed := true } := by
  rcases htype with h | h <;>
    simp [finish_dlc_protocol, hget, finish_dlc_protocol_txn, h, post_commit_msgs]

/-- Witness for C9 at a concrete store holding a pending `Close` protocol. -/
theorem c9_witness :
    get_dlc_protocol db_close0 pid0 = some proto_close0 ∧
    finish_dlc_protocol F0 pid0 1 (some 123) 9 true db_close0 =
      { result := .ok (), db := db_close0, msgs := [],
        debug_assertion_failed := true } :=
  ⟨rfl, c9_close_force_close_noop F0 pid0 1 (some 123) 9 true db_close0
    proto_close0 1 rfl (Or.inl rfl)⟩

end TenTenOne

namespace TenTenOne

theorem update_proposed_position_spec (db : Db) (trader : PubKey)
    (st : PositionState) (position : Position) (db' : Db)
    (h : update_proposed_position db trader st = some (position, db')) :
    ∃ q ∈ db.positions, q.trader = trader ∧ q.position_state = .Proposed ∧
      position = { q with position_state := st } ∧
      db'.protocols = db.protocols ∧ db'.trades = db.trades ∧
      db'.trade_params = db.trade_params ∧
      position ∈ db'.positions := by
  unfold update_proposed_position at h
  split at h
  · exact absurd h (by simp)
  next q heq =>
    obtain ⟨h1, h2⟩ := Prod.mk.injEq .. ▸ Option.some.inj h
    have hqmem := List.mem_of_find?_eq_some heq
    have hqpred := List.find?_some heq
    simp only [decide_eq_true_eq] at hqpred
    obtain ⟨htr, hst⟩ := hqpred
    subst h1 h2
    refine ⟨q, hqmem, htr, hst, rfl, rfl, rfl, rfl, ?_⟩
    simp only [List.mem_map]
    exact ⟨q, hqmem, by simp [htr, hst]⟩

end TenTenOne

namespace TenTenOne

theorem u64_to_i64_of_lt (n : Nat) (h : n < 2 ^ 63) :
    u64_to_i64 n = (n : ℤ) := by
  unfold u64_to_i64
  rw [Nat.mod_eq_of_lt (lt_trans h (by norm_num))]
  rw [if_pos h]

/-- C2: for an `Open` or `Renew` protocol the finalize requires a contract
id (absent ⇒ rollback error), and on success — in one transaction — sets
the protocol to `Success` with the new contract id, transitions the
trader's unique `Proposed` position to `Open`, inserts a `Trade` whose
`coordinator_margin` is
`calculate_margin(average_price, quantity, coordinator_leverage(trader))`
(the source stores `calculate_margin(...) as i64`; under the disclosed
hypothesis that the u64 result is below `2^63` the wrapping cast is the
identity and the stored value equals `calculate_margin(...)`), and deletes
the pending `TradeParams` row; `Renew` takes the very same path as
`Open`. -/
theorem c2_open_renew_finalize (F : CfdFns) (protocol_id : ProtocolId)
    (trader_id : PubKey) (c : ContractId) (channel_id : DlcChannelId)
    (send_ok : Bool) (db : Db) (dlc : DlcProtocol) (tp : TradeParams)
    (position : Position) (db2 : Db) (lev : ℚ)
    (hget : get_dlc_protocol db protocol_id = some dlc)
    (htype : dlc.protocol_type = .Open tp ∨ dlc.protocol_type = .Renew tp)
    (hupd : update_proposed_position
      (set_dlc_protocol_state_to_success db protocol_id c channel_id)
      tp.trader .Open = some (position, db2))
    (hlev : F.coordinator_leverage_for_trade tp.trader = .ok lev)
    (hrange : F.calculate_margin tp.average_price tp.quantity lev < 2 ^ 63) :
    (finish_dlc_protocol F protocol_id trader_id none channel_id send_ok
      db).result = .error .RollbackTransaction ∧
    (finish_dlc_protocol F protocol_id trader_id (some c) channel_id send_ok
      db).result = .ok () ∧
    (∀ p ∈ (finish_dlc_protocol F protocol_id trader_id (some c) channel_id
        send_ok db).db.protocols,
      p.id = protocol_id → p.protocol_state = .Success ∧ p.contract_id = c) ∧
    (∃ q ∈ db.positions, q.trader = tp.trader ∧ q.position_state = .Proposed ∧
      position = { q with position_state := .Open }) ∧
    position.position_state = .Open ∧
    position ∈ (finish_dlc_protocol F protocol_id trader_id (some c)
      channel_id send_ok db).db.positions ∧
    (finish_dlc_protocol F protocol_id trader_id (some c) channel_id send_ok
      db).db.trades = db.trades ++
      [{ position_id := position.id
         contract_symbol := position.contract_symbol
         trader_pubkey := tp.trader
         quantity := tp.quantity
         trader_leverage := tp.leverage
         coordinator_margin :=
           (F.calculate_margin tp.average_price tp.quantity lev : ℤ)
         trader_direction := tp.direction
         average_price := tp.average_price
         dlc_expiry_timestamp := none }] ∧
    (finish_dlc_protocol F protocol_id trader_id (some c) channel_id send_ok
      db).db.trade_params =
      db.trade_params.filter (fun r => ¬ r.protocol_id = protocol_id) := by
  have hout : finish_dlc_protocol F protocol_id trader_id (some c) channel_id
      send_ok db =
      { result := .ok ()
        db := trade_params_delete (trades_insert db2
          { position_id := position.id
            contract_symbol := position.contract_symbol
            trader_pubkey := tp.trader
            quantity := tp.quantity
            trader_leverage := tp.leverage
            coordinator_margin :=
              u64_to_i64 (F.calculate_margin tp.average_price tp.quantity lev)
            trader_direction := tp.direction
            average_price := tp.average_price
            dlc_expiry_timestamp := none }) protocol_id
        msgs := post_commit_msgs dlc
        debug_assertion_failed := false } := by
    rcases htype with h | h <;>
      simp [finish_dlc_protocol, hget, finish_dlc_protocol_txn, h,
        finish_open_trade_dlc_protocol, hupd, hlev]
  obtain ⟨q, hqmem, htr, hst, hposeq, hprot, htrades, htp, hmem⟩ :=
    update_proposed_position_spec _ _ _ _ _ hupd
  have hmissing : (finish_dlc_protocol F protocol_id trader_id none channel_id
      send_ok db).result = .error .RollbackTransaction := by
    rcases htype with h | h <;>
      simp [finish_dlc_protocol, hget, finish_dlc_protocol_txn, h]
  refine ⟨hmissing, by rw [hout], ?_, ⟨q, hqmem, htr, hst, hposeq⟩, ?_, ?_, ?_, ?_⟩
  · rw [hout]
    intro p hp hid
    have hp2 : p ∈ (set_dlc_protocol_state_to_success db protocol_id c
        channel_id).protocols := by
      rw [← hprot]; exact hp
    have := (set_success_protocols_spec db protocol_id c channel_id p hp2).1 hid
    exact ⟨this.1, this.2.1⟩
  · rw [hposeq]
  · rw [hout]; exact hmem
  · rw [hout]
    show db2.trades ++ _ = _
    rw [htrades, u64_to_i64_of_lt _ hrange]
    rfl
  · rw [hout]
    show (db2.trade_params.filter _) = _
    rw [htp]
    rfl

/-- Witness for C2: finishing the pending `Open` protocol over a concrete
store with one `Proposed` position succeeds. -/
theorem c2_witness :
    get_dlc_protocol db_open0 pid0 = some proto0 ∧
    update_proposed_position
      (set_dlc_protocol_state_to_success db_open0 pid0 123 9) tp0.trader
      .Open = some (pos_open0, db_open_after0) ∧
    F0.coordinator_leverage_for_trade tp0.trader = .ok 2 ∧
    F0.calculate_margin tp0.average_price tp0.quantity 2 < 2 ^ 63 ∧
    (finish_dlc_protocol F0 pid0 1 (some 123) 9 true db_open0).result =
      .ok () :=
  ⟨rfl, rfl, rfl, by decide,
    (c2_open_renew_finalize F0 pid0 1 123 9 true db_open0 proto0 tp0
      pos_open0 db_open_after0 2 rfl (Or.inl rfl) rfl rfl (by decide)).2.1⟩

end TenTenOne

namespace TenTenOne

theorem i64_to_u64_of_nonneg (m : ℤ) (h0 : 0 ≤ m) (h64 : m < 2 ^ 64) :
    i64_to_u64 m = m.toNat := by
  unfold i64_to_u64
  rw [Int.emod_eq_of_lt h0 (by exact_mod_cast h64)]

theorem kind_eq_closing (st : PositionState)
    (h : position_state_kind_eq st (.Closing 0) = true) :
    ∃ cp, st = .Closing cp := by
  cases st <;> simp [position_state_kind_eq] at h ⊢

/-- C3: when a `Settle` protocol finishes, the trader's position found in
state `Closing` (the stored closing price plays no role in the lookup) is
set to `Closed` with
`pnl = calculate_pnl(position.average_entry_price, trade_params.average_price,
trade_params.quantity, trade_params.direction, margin_long, margin_short)`
where the initial margins are `(trader_margin, coordinator_margin)` for a
`Long` trade direction and the swapped pair for `Short`. -/
theorem c3_settle_closes_position_with_pnl (F : CfdFns)
    (protocol_id : ProtocolId) (trader_id : PubKey)
    (contract_id : Option ContractId) (channel_id : DlcChannelId)
    (send_ok : Bool) (db : Db) (dlc : DlcProtocol) (tp : TradeParams)
    (position : Position) (lev : ℚ) (v : ℤ)
    (hget : get_dlc_protocol db protocol_id = some dlc)
    (htype : dlc.protocol_type = .Settle tp)
    (hfind : get_position_by_trader
      (set_dlc_protocol_state_to_success db protocol_id dlc.contract_id
        channel_id) tp.trader [.Closing 0] = some position)
    (hm1 : 0 ≤ position.trader_margin) (hm2 : position.trader_margin < 2 ^ 64)
    (hm3 : 0 ≤ position.coordinator_margin)
    (hm4 : position.coordinator_margin < 2 ^ 64)
    (hpnl : F.calculate_pnl position.average_entry_price tp.average_price
      tp.quantity tp.direction
      (if tp.direction = .Long then position.trader_margin.toNat
        else position.coordinator_margin.toNat)
      (if tp.direction = .Long then position.coordinator_margin.toNat
        else position.trader_margin.toNat) = .ok v)
    (hlev : F.coordinator_leverage_for_trade tp.trader = .ok lev) :
    (finish_dlc_protocol F protocol_id trader_id contract_id channel_id
      send_ok db).result = .ok () ∧
    position.trader = tp.trader ∧
    (∃ cp, position.position_state = .Closing cp) ∧
    { position with position_state := .Closed, pnl := some v } ∈
      (finish_dlc_protocol F protocol_id trader_id contract_id channel_id
        send_ok db).db.positions ∧
    (finish_dlc_protocol F protocol_id trader_id contract_id channel_id
      send_ok db).db.trade_params =
      db.trade_params.filter (fun r => ¬ r.protocol_id = protocol_id) := by
  have hmem : position ∈ (set_dlc_protocol_state_to_success db protocol_id
      dlc.contract_id channel_id).positions :=
    List.mem_of_find?_eq_some hfind
  have hpred := List.find?_some hfind
  simp only [Bool.and_eq_true, decide_eq_true_eq, List.any_eq_true,
    List.mem_singleton] at hpred
  obtain ⟨htrader, st, hstmem, hkind⟩ := hpred
  have hclosing := kind_eq_closing position.position_state (hstmem ▸ hkind)
  have hout : finish_dlc_protocol F protocol_id trader_id contract_id
      channel_id send_ok db =
      { result := .ok ()
        db := trade_params_delete (trades_insert
          (set_position_to_closed_with_pnl
            (set_dlc_protocol_state_to_success db protocol_id dlc.contract_id
              channel_id) position.id v)
          { position_id := position.id
            contract_symbol := position.contract_symbol
            trader_pubkey := tp.trader
            quantity := tp.quantity
            trader_leverage := tp.leverage
            coordinator_margin :=
              u64_to_i64 (F.calculate_margin tp.average_price tp.quantity lev)
            trader_direction := tp.direction
            average_price := tp.average_price
            dlc_expiry_timestamp := none }) protocol_id
        msgs := post_commit_msgs dlc
        debug_assertion_failed := false } := by
    cases hdir : tp.direction with
    | Long =>
      simp only [hdir] at hpnl
      simp at hpnl
      simp [finish_dlc_protocol, hget, finish_dlc_protocol_txn, htype,
        finish_close_trade_dlc_protocol, hfind, hdir,
        i64_to_u64_of_nonneg position.trader_margin hm1 hm2,
        i64_to_u64_of_nonneg position.coordinator_margin hm3 hm4,
        hpnl, hlev]
    | Short =>
      simp only [hdir] at hpnl
      simp at hpnl
      simp [finish_dlc_protocol, hget, finish_dlc_protocol_txn, htype,
        finish_close_trade_dlc_protocol, hfind, hdir,
        i64_to_u64_of_nonneg position.trader_margin hm1 hm2,
        i64_to_u64_of_nonneg position.coordinator_margin hm3 hm4,
        hpnl, hlev]
  refine ⟨by rw [hout], htrader, hclosing, ?_, ?_⟩
  · rw [hout]
    show _ ∈ (set_position_to_closed_with_pnl _ position.id v).positions
    simp only [set_position_to_closed_with_pnl, List.mem_map]
    exact ⟨position, hmem, by simp⟩
  · rw [hout]
    rfl

/-- Witness for C3 at a concrete store with a `Closing` position. -/
theorem c3_witness :
    get_dlc_protocol db_settle0 pid0 = some proto_settle0 ∧
    get_position_by_trader
      (set_dlc_protocol_state_to_success db_settle0 pid0
        proto_settle0.contract_id 9) tp0.trader [.Closing 0] =
      some pos_closing0 ∧
    F0.calculate_pnl pos_closing0.average_entry_price tp0.average_price
      tp0.quantity tp0.direction
      (if tp0.direction = .Long then pos_closing0.trader_margin.toNat
        else pos_closing0.coordinator_margin.toNat)
      (if tp0.direction = .Long then pos_closing0.coordinator_margin.toNat
        else pos_closing0.trader_margin.toNat) = .ok 7 ∧
    (finish_dlc_protocol F0 pid0 1 none 9 true db_settle0).result = .ok () ∧
    { pos_closing0 with position_state := .Closed, pnl := some 7 } ∈
      (finish_dlc_protocol F0 pid0 1 none 9 true db_settle0).db.positions := by
  have h := c3_settle_closes_position_with_pnl F0 pid0 1 none 9 true
    db_settle0 proto_settle0 tp0 pos_closing0 2 7 rfl rfl rfl
    (by decide) (by decide) (by decide) (by decide) rfl rfl
  exact ⟨rfl, rfl, rfl, h.1, h.2.2.2.1⟩

end TenTenOne

namespace TenTenOne

theorem finish_close_trade_ok_spec (F : CfdFns) (tp : TradeParams)
    (protocol_id : ProtocolId) (settled_contract : ContractId)
    (channel_id : DlcChannelId) (db db2 : Db)
    (h : finish_close_trade_dlc_protocol F tp protocol_id settled_contract
      channel_id db = .ok db2) :
    db2.protocols = (set_dlc_protocol_state_to_success db protocol_id
      settled_contract channel_id).protocols ∧
    db2.trade_params =
      db.trade_params.filter (fun r => ¬ r.protocol_id = protocol_id) := by
  unfold finish_close_trade_dlc_protocol at h
  cases hdir : tp.direction with
  | Long =>
    simp only [hdir] at h
    split at h
    · exact absurd h (by simp)
    · split at h
      · exact absurd h (by simp)
      · split at h
        · exact absurd h (by simp)
        · rw [Except.ok.injEq] at h
          subst h
          exact ⟨rfl, rfl⟩
  | Short =>
    simp only [hdir] at h
    split at h
    · exact absurd h (by simp)
    · split at h
      · exact absurd h (by simp)
      · split at h
        · exact absurd h (by simp)
        · rw [Except.ok.injEq] at h
          subst h
          exact ⟨rfl, rfl⟩

/-- C4: finishing a `Settle` protocol ignores the `contract_id` argument
entirely — the outcome is the same for any passed value — and on success
the protocol row is `Success` carrying the contract id stored at protocol
start (the settled contract). -/
theorem c4_settle_reuses_stored_contract_id (F : CfdFns)
    (protocol_id : ProtocolId) (trader_id : PubKey)
    (contract_id : Option ContractId) (channel_id : DlcChannelId)
    (send_ok : Bool) (db : Db) (dlc : DlcProtocol) (tp : TradeParams)
    (hget : get_dlc_protocol db protocol_id = some dlc)
    (htype : dlc.protocol_type = .Settle tp) :
    (∀ cid₁ cid₂ : Option ContractId,
      finish_dlc_protocol F protocol_id trader_id cid₁ channel_id send_ok db =
      finish_dlc_protocol F protocol_id trader_id cid₂ channel_id send_ok db) ∧
    ((finish_dlc_protocol F protocol_id trader_id contract_id channel_id
        send_ok db).result = .ok () →
      ∀ p ∈ (finish_dlc_protocol F protocol_id trader_id contract_id
        channel_id send_ok db).db.protocols,
        p.id = protocol_id →
          p.protocol_state = .Success ∧ p.contract_id = dlc.contract_id) := by
  constructor
  · intro cid₁ cid₂
    simp [finish_dlc_protocol, hget, finish_dlc_protocol_txn, htype]
  · intro hok p hp hid
    revert hok hp
    simp only [finish_dlc_protocol, hget, finish_dlc_protocol_txn, htype]
    rcases hclose : finish_close_trade_dlc_protocol F tp protocol_id
        dlc.contract_id channel_id db with e | db2
    · intro hok; simp at hok
    · intro _ hp
      obtain ⟨hprot, _⟩ := finish_close_trade_ok_spec F tp protocol_id
        dlc.contract_id channel_id db db2 hclose
      rw [hprot] at hp
      have hs := (set_success_protocols_spec db protocol_id dlc.contract_id
        channel_id p hp).1 hid
      exact ⟨hs.1, hs.2.1⟩

/-- Witness for C4: at a concrete `Settle` store, the outcome with a fresh
contract-id argument equals the outcome with none, and the `Success` row
keeps the stored contract id `77`. -/
theorem c4_witness :
    get_dlc_protocol db_settle0 pid0 = some proto_settle0 ∧
    finish_dlc_protocol F0 pid0 1 (some 555) 9 true db_settle0 =
      finish_dlc_protocol F0 pid0 1 none 9 true db_settle0 ∧
    (finish_dlc_protocol F0 pid0 1 (some 555) 9 true db_settle0).result =
      .ok () ∧
    (∀ p ∈ (finish_dlc_protocol F0 pid0 1 (some 555) 9 true
        db_settle0).db.protocols,
      p.id = pid0 → p.protocol_state = .Success ∧ p.contract_id = 77) := by
  have h := c4_settle_reuses_stored_contract_id F0 pid0 1 (some 555) 9 true
    db_settle0 proto_settle0 tp0 rfl rfl
  exact ⟨rfl, h.1 (some 555) none, rfl, h.2 rfl⟩

end TenTenOne

namespace TenTenOne

/-- C6: after a successful `Open`/`Renew`/`Settle` finalize, the executor
publishes a `NewTrade` message whose quantity is the trade-params quantity
when the trader sold (`Short`) and its negation when the trader bought
(`Long`), with the trade-params average price; and the result of the
post-commit send influences neither the stored state nor the returned
result. -/
theorem c6_post_commit_broadcast (F : CfdFns) (protocol_id : ProtocolId)
    (trader_id : PubKey) (contract_id : Option ContractId)
    (channel_id : DlcChannelId) (db : Db) (dlc : DlcProtocol)
    (tp : TradeParams)
    (hget : get_dlc_protocol db protocol_id = some dlc)
    (htype : dlc.protocol_type = .Open tp ∨ dlc.protocol_type = .Renew tp ∨
      dlc.protocol_type = .Settle tp)
    (hok : (finish_dlc_protocol F protocol_id trader_id contract_id
      channel_id true db).result = .ok ()) :
    ∀ send_ok : Bool,
      (finish_dlc_protocol F protocol_id trader_id contract_id channel_id
        send_ok db).msgs =
        [{ quantity := if tp.direction = .Short then tp.quantity
             else -tp.quantity
           average_entry_price := tp.average_price }] ∧
      (finish_dlc_protocol F protocol_id trader_id contract_id channel_id
        send_ok db).db =
        (finish_dlc_protocol F protocol_id trader_id contract_id channel_id
          true db).db ∧
      (finish_dlc_protocol F protocol_id trader_id contract_id channel_id
        send_ok db).result = .ok () := by
  have hirrel : ∀ s : Bool,
      finish_dlc_protocol F protocol_id trader_id contract_id channel_id s db =
      finish_dlc_protocol F protocol_id trader_id contract_id channel_id
        true db := fun _ => rfl
  have hmsgs : (finish_dlc_protocol F protocol_id trader_id contract_id
      channel_id true db).msgs = post_commit_msgs dlc := by
    revert hok
    simp only [finish_dlc_protocol, hget]
    rcases htxn : finish_dlc_protocol_txn F protocol_id trader_id contract_id
        channel_id dlc db with ⟨res, flag⟩
    cases res with
    | error e => intro hok; simp at hok
    | ok db2 => intro _; rfl
  intro send_ok
  rw [hirrel send_ok]
  refine ⟨?_, rfl, hok⟩
  rw [hmsgs]
  rcases htype with h | h | h <;>
    simp [post_commit_msgs, h, mul_neg_one]

/-- Witness for C6: the concrete `Open` finalize broadcasts
`NewTrade{-quantity, average_price}` and the store does not depend on the
send result. -/
theorem c6_witness :
    get_dlc_protocol db_open0 pid0 = some proto0 ∧
    (finish_dlc_protocol F0 pid0 1 (some 123) 9 true db_open0).result =
      .ok () ∧
    (finish_dlc_protocol F0 pid0 1 (some 123) 9 false db_open0).msgs =
      [{ quantity := if tp0.direction = .Short then tp0.quantity
           else -tp0.quantity
         average_entry_price := tp0.average_price }] ∧
    (finish_dlc_protocol F0 pid0 1 (some 123) 9 false db_open0).db =
      (finish_dlc_protocol F0 pid0 1 (some 123) 9 true db_open0).db :=
  ⟨rfl, rfl,
    (c6_post_commit_broadcast F0 pid0 1 (some 123) 9 db_open0 proto0 tp0 rfl
      (Or.inl rfl) rfl false).1,
    (c6_post_commit_broadcast F0 pid0 1 (some 123) 9 db_open0 proto0 tp0 rfl
      (Or.inl rfl) rfl false).2.1⟩

end TenTenOne

namespace TenTenOne

theorem finish_open_trade_ok_spec (F : CfdFns) (tp : TradeParams)
    (protocol_id : ProtocolId) (contract_id : ContractId)
    (channel_id : DlcChannelId) (db db2 : Db)
    (h : finish_open_trade_dlc_protocol F tp protocol_id contract_id
      channel_id db = .ok db2) :
    db2.protocols = (set_dlc_protocol_state_to_success db protocol_id
      contract_id channel_id).protocols ∧
    db2.trade_params =
      db.trade_params.filter (fun r => ¬ r.protocol_id = protocol_id) := by
  simp only [finish_open_trade_dlc_protocol] at h
  rcases hupd : update_proposed_position
      (set_dlc_protocol_state_to_success db protocol_id contract_id
        channel_id) tp.trader PositionState.Open with _ | ⟨position, dbu⟩ <;>
    rw [hupd] at h
  · simp at h
  · rcases hlev : F.coordinator_leverage_for_trade tp.trader with e | lev <;>
      rw [hlev] at h
    · simp at h
    · rw [Except.ok.injEq] at h
      subst h
      obtain ⟨_, _, _, _, _, hprot, _, htp, _⟩ :=
        update_proposed_position_spec _ _ _ _ _ hupd
      exact ⟨hprot, congrArg (List.filter _) htp⟩

theorem finish_rollover_ok_spec (trader : PubKey) (protocol_id : ProtocolId)
    (contract_id : ContractId) (channel_id : DlcChannelId) (db db2 : Db)
    (h : finish_rollover_dlc_protocol trader protocol_id contract_id
      channel_id db = .ok db2) :
    db2.protocols = (set_dlc_protocol_state_to_success db protocol_id
      contract_id channel_id).protocols ∧
    db2.trade_params = db.trade_params := by
  unfold finish_rollover_dlc_protocol at h
  rw [Except.ok.injEq] at h
  subst h
  exact ⟨rfl, rfl⟩

theorem start_ok_spec (protocol_id : ProtocolId)
    (previous_protocol_id : Option ProtocolId) (contract_id : ContractId)
    (channel_id : DlcChannelId) (protocol_type : DlcProtocolType)
    (db db' : Db)
    (h : start_dlc_protocol protocol_id previous_protocol_id contract_id
      channel_id protocol_type db = .ok db') :
    (∀ p ∈ db.protocols, p.id ≠ protocol_id) ∧
    db'.protocols = db.protocols ++
      [{ id := protocol_id, timestamp := 0, channel_id := channel_id,
         contract_id := contract_id,
         trader := protocol_type.get_trader_pubkey,
         protocol_state := .Pending, protocol_type := protocol_type }] ∧
    (match protocol_type with
     | .Open tp | .Renew tp | .Settle tp =>
       db'.trade_params = db.trade_params ++ [{ tp with protocol_id := protocol_id }]
     | _ => db'.trade_params = db.trade_params) := by
  unfold start_dlc_protocol dlc_protocols_create at h
  cases hany : db.protocols.any (fun p => p.id = protocol_id) with
  | true => rw [hany] at h; simp at h
  | false =>
    rw [hany] at h
    simp at h
    have hfresh' : ∀ p ∈ db.protocols, p.id ≠ protocol_id := by
      intro p hp heq
      have htrue : db.protocols.any (fun p => p.id = protocol_id) = true :=
        List.any_eq_true.mpr ⟨p, hp, by simp [heq]⟩
      rw [hany] at htrue
      exact absurd htrue (by simp)
    cases protocol_type <;>
      (simp only [Except.ok.injEq] at h; subst h; exact ⟨hfresh', rfl, rfl⟩)

theorem set_success_ids (db : Db) (protocol_id : ProtocolId)
    (contract_id : ContractId) (channel_id : DlcChannelId) :
    (set_dlc_protocol_state_to_success db protocol_id contract_id
      channel_id).protocols.map (·.id) = db.protocols.map (·.id) := by
  simp only [set_dlc_protocol_state_to_success, List.map_map]
  apply List.map_congr_left
  intro p _
  by_cases h : p.id = protocol_id <;> simp [Function.comp, h]

theorem set_failed_ids (db : Db) (protocol_id : ProtocolId) :
    (set_dlc_protocol_state_to_failed db protocol_id).protocols.map (·.id) =
      db.protocols.map (·.id) := by
  simp only [set_dlc_protocol_state_to_failed, List.map_map]
  apply List.map_congr_left
  intro p _
  by_cases h : p.id = protocol_id <;> simp [Function.comp, h]

theorem set_success_row_iff (db : Db) (protocol_id : ProtocolId)
    (contract_id : ContractId) (channel_id : DlcChannelId)
    (pid' : ProtocolId) (hne : pid' ≠ protocol_id) :
    (∃ p ∈ (set_dlc_protocol_state_to_success db protocol_id contract_id
        channel_id).protocols,
      p.id = pid' ∧ p.protocol_type.trade_bearing = true ∧
      (p.protocol_state = .Pending ∨ p.protocol_state = .Failed)) ↔
    (∃ p ∈ db.protocols,
      p.id = pid' ∧ p.protocol_type.trade_bearing = true ∧
      (p.protocol_state = .Pending ∨ p.protocol_state = .Failed)) := by
  constructor
  · rintro ⟨p, hp, hid, hTB, hPF⟩
    simp only [set_dlc_protocol_state_to_success, List.mem_map] at hp
    obtain ⟨q, hq, rfl⟩ := hp
    by_cases h : q.id = protocol_id
    · simp only [h, if_true] at hid hTB hPF
      exact absurd hid.symm hne
    · simp only [h, if_false] at hid hTB hPF
      exact ⟨q, hq, hid, hTB, hPF⟩
  · rintro ⟨p, hp, hid, hTB, hPF⟩
    have h : ¬ p.id = protocol_id := by rw [hid]; exact hne
    refine ⟨p, ?_, hid, hTB, hPF⟩
    simp only [set_dlc_protocol_state_to_success, List.mem_map]
    exact ⟨p, hp, by simp [h]⟩

theorem set_success_row_not_pending (db : Db) (protocol_id : ProtocolId)
    (contract_id : ContractId) (channel_id : DlcChannelId) :
    ¬ ∃ p ∈ (set_dlc_protocol_state_to_success db protocol_id contract_id
        channel_id).protocols,
      p.id = protocol_id ∧ p.protocol_type.trade_bearing = true ∧
      (p.protocol_state = .Pending ∨ p.protocol_state = .Failed) := by
  rintro ⟨p, hp, hid, _, hPF⟩
  simp only [set_dlc_protocol_state_to_success, List.mem_map] at hp
  obtain ⟨q, hq, rfl⟩ := hp
  by_cases h : q.id = protocol_id
  · simp [h] at hPF
  · simp only [h, if_false] at hid

end TenTenOne

namespace TenTenOne

theorem set_failed_row_iff (db : Db) (protocol_id : ProtocolId)
    (pid' : ProtocolId) (hne : pid' ≠ protocol_id) :
    (∃ p ∈ (set_dlc_protocol_state_to_failed db protocol_id).protocols,
      p.id = pid' ∧ p.protocol_type.trade_bearing = true ∧
      (p.protocol_state = .Pending ∨ p.protocol_state = .Failed)) ↔
    (∃ p ∈ db.protocols,
      p.id = pid' ∧ p.protocol_type.trade_bearing = true ∧
      (p.protocol_state = .Pending ∨ p.protocol_state = .Failed)) := by
  constructor
  · rintro ⟨p, hp, hid, hTB, hPF⟩
    simp only [set_dlc_protocol_state_to_failed, List.mem_map] at hp
    obtain ⟨q, hq, rfl⟩ := hp
    by_cases h : q.id = protocol_id
    · simp only [h, if_true] at hid hTB hPF
      exact absurd hid.symm hne
    · simp only [h, if_false] at hid hTB hPF
      exact ⟨q, hq, hid, hTB, hPF⟩
  · rintro ⟨p, hp, hid, hTB, hPF⟩
    have h : ¬ p.id = protocol_id := by rw [hid]; exact hne
    refine ⟨p, ?_, hid, hTB, hPF⟩
    simp only [set_dlc_protocol_state_to_failed, List.mem_map]
    exact ⟨p, hp, by simp [h]⟩

theorem set_failed_row_guard (db : Db) (protocol_id : ProtocolId)
    (hnodup : (db.protocols.map (·.id)).Nodup)
    (hguard : ∃ p ∈ db.protocols, p.id = protocol_id ∧
      p.protocol_state = .Pending) :
    (∃ p ∈ (set_dlc_protocol_state_to_failed db protocol_id).protocols,
      p.id = protocol_id ∧ p.protocol_type.trade_bearing = true ∧
      (p.protocol_state = .Pending ∨ p.protocol_state = .Failed)) ↔
    (∃ p ∈ db.protocols,
      p.id = protocol_id ∧ p.protocol_type.trade_bearing = true ∧
      (p.protocol_state = .Pending ∨ p.protocol_state = .Failed)) := by
  obtain ⟨q0, hq0, hq0id, hq0st⟩ := hguard
  constructor
  · rintro ⟨p, hp, hid, hTB, _⟩
    simp only [set_dlc_protocol_state_to_failed, List.mem_map] at hp
    obtain ⟨q, hq, rfl⟩ := hp
    by_cases h : q.id = protocol_id
    · simp only [h, if_true] at hid hTB
      have hqq0 : q = q0 :=
        List.inj_on_of_nodup_map hnodup hq hq0 (by rw [h, hq0id])
      exact ⟨q, hq, h, hTB, Or.inl (hqq0 ▸ hq0st)⟩
    · simp only [h, if_false] at hid
  · rintro ⟨p, hp, hid, hTB, _⟩
    refine ⟨{ p with protocol_state := .Failed }, ?_, hid, hTB, Or.inr rfl⟩
    simp only [set_dlc_protocol_state_to_failed, List.mem_map]
    exact ⟨p, hp, by simp [hid]⟩

theorem finish_db_shape (F : CfdFns) (protocol_id : ProtocolId)
    (trader_id : PubKey) (contract_id : Option ContractId)
    (channel_id : DlcChannelId) (send_ok : Bool) (db : Db) :
    (finish_dlc_protocol F protocol_id trader_id contract_id channel_id
      send_ok db).db = db ∨
    ∃ dlc C, get_dlc_protocol db protocol_id = some dlc ∧
      (finish_dlc_protocol F protocol_id trader_id contract_id channel_id
        send_ok db).db.protocols =
        (set_dlc_protocol_state_to_success db protocol_id C
          channel_id).protocols ∧
      ((dlc.protocol_type.trade_bearing = true ∧
        (finish_dlc_protocol F protocol_id trader_id contract_id channel_id
          send_ok db).db.trade_params =
          db.trade_params.filter (fun r => ¬ r.protocol_id = protocol_id)) ∨
       (dlc.protocol_type.trade_bearing = false ∧
        (finish_dlc_protocol F protocol_id trader_id contract_id channel_id
          send_ok db).db.trade_params = db.trade_params)) := by
  rcases hget : get_dlc_protocol db protocol_id with _ | dlc
  · left; simp [finish_dlc_protocol, hget]
  · rcases htxn : finish_dlc_protocol_txn F protocol_id trader_id contract_id
        channel_id dlc db with ⟨res, flag⟩
    cases res with
    | error e => left; simp [finish_dlc_protocol, hget, htxn]
    | ok db2 =>
      have hdb : (finish_dlc_protocol F protocol_id trader_id contract_id
          channel_id send_ok db).db = db2 := by
        simp [finish_dlc_protocol, hget, htxn]
      rcases hty : dlc.protocol_type with tp | tp | tp | t | t | t
      · cases contract_id with
        | none => simp [finish_dlc_protocol_txn, hty] at htxn
        | some c =>
          simp only [finish_dlc_protocol_txn, hty, Prod.mk.injEq] at htxn
          obtain ⟨hopen, _⟩ := htxn
          obtain ⟨hprot, htp⟩ := finish_open_trade_ok_spec F tp protocol_id c
            channel_id db db2 hopen
          exact Or.inr ⟨dlc, c, rfl, by rw [hdb]; exact hprot,
            Or.inl ⟨by rw [hty]; rfl, by rw [hdb]; exact htp⟩⟩
      · cases contract_id with
        | none => simp [finish_dlc_protocol_txn, hty] at htxn
        | some c =>
          simp only [finish_dlc_protocol_txn, hty, Prod.mk.injEq] at htxn
          obtain ⟨hopen, _⟩ := htxn
          obtain ⟨hprot, htp⟩ := finish_open_trade_ok_spec F tp protocol_id c
            channel_id db db2 hopen
          exact Or.inr ⟨dlc, c, rfl, by rw [hdb]; exact hprot,
            Or.inl ⟨by rw [hty]; rfl, by rw [hdb]; exact htp⟩⟩
      · simp only [finish_dlc_protocol_txn, hty, Prod.mk.injEq] at htxn
        obtain ⟨hclose, _⟩ := htxn
        obtain ⟨hprot, htp⟩ := finish_close_trade_ok_spec F tp protocol_id
          dlc.contract_id channel_id db db2 hclose
        exact Or.inr ⟨dlc, dlc.contract_id, rfl, by rw [hdb]; exact hprot,
          Or.inl ⟨by rw [hty]; rfl, by rw [hdb]; exact htp⟩⟩
      · simp only [finish_dlc_protocol_txn, hty, Prod.mk.injEq] at htxn
        obtain ⟨hok, _⟩ := htxn
        left
        rw [hdb]
        exact (Except.ok.inj hok).symm
      · simp only [finish_dlc_protocol_txn, hty, Prod.mk.injEq] at htxn
        obtain ⟨hok, _⟩ := htxn
        left
        rw [hdb]
        exact (Except.ok.inj hok).symm
      · cases contract_id with
        | none => simp [finish_dlc_protocol_txn, hty] at htxn
        | some c =>
          simp only [finish_dlc_protocol_txn, hty, Prod.mk.injEq] at htxn
          obtain ⟨hroll, _⟩ := htxn
          obtain ⟨hprot, htp⟩ := finish_rollover_ok_spec trader_id protocol_id
            c channel_id db db2 hroll
          exact Or.inr ⟨dlc, c, rfl, by rw [hdb]; exact hprot,
            Or.inr ⟨by rw [hty]; rfl, by rw [hdb]; exact htp⟩⟩

end TenTenOne

namespace TenTenOne

theorem get_dlc_protocol_mem (db : Db) (protocol_id : ProtocolId)
    (dlc : DlcProtocol) (h : get_dlc_protocol db protocol_id = some dlc) :
    dlc ∈ db.protocols ∧ dlc.id = protocol_id := by
  refine ⟨List.mem_of_find?_eq_some h, ?_⟩
  have := List.find?_some h
  simpa using this

/-- C7 (amended): in every state reachable through the executor's
operations, protocol ids are unique and a pending `TradeParams` row exists
exactly for a trade-bearing protocol (`Open | Renew | Settle`) that is
`Pending` or `Failed`: the row is inserted with the `Pending` protocol at
start, deleted only by a successful finalize, and left in place by
`fail_dlc_protocol`. -/
theorem c7_pending_trade_params_invariant (F : CfdFns) (db : Db)
    (h : Reachable F db) : DbInvariant db := by
  induction h with
  | init =>
    constructor
    · simp [Db.empty]
    · intro pid
      constructor
      · rintro ⟨r, hr, _⟩; simp [Db.empty] at hr
      · rintro ⟨p, hp, _⟩; simp [Db.empty] at hp
  | start pid prev cid chid ptype hreach hok ih =>
    obtain ⟨ihn, ihiff⟩ := ih
    obtain ⟨hfresh, hprot, htp⟩ := start_ok_spec _ _ _ _ _ _ _ hok
    rename_i dbx db'
    have htpcases :
        (ptype.trade_bearing = true ∧ ∃ r0 : TradeParams,
          r0.protocol_id = pid ∧
          db'.trade_params = dbx.trade_params ++ [r0]) ∨
        (ptype.trade_bearing = false ∧
          db'.trade_params = dbx.trade_params) := by
      cases ptype with
      | Open tp =>
        exact Or.inl ⟨rfl, { tp with protocol_id := pid }, rfl, htp⟩
      | Renew tp =>
        exact Or.inl ⟨rfl, { tp with protocol_id := pid }, rfl, htp⟩
      | Settle tp =>
        exact Or.inl ⟨rfl, { tp with protocol_id := pid }, rfl, htp⟩
      | Close t => exact Or.inr ⟨rfl, htp⟩
      | ForceClose t => exact Or.inr ⟨rfl, htp⟩
      | Rollover t => exact Or.inr ⟨rfl, htp⟩
    constructor
    · rw [hprot]
      simp only [List.map_append, List.map_cons, List.map_nil]
      rw [List.nodup_append]
      refine ⟨ihn, List.nodup_singleton _, ?_⟩
      intro a ha hamem
      simp only [List.mem_map] at ha
      obtain ⟨p, hp, hpa⟩ := ha
      simp only [List.mem_singleton] at hamem
      exact hfresh p hp (by rw [hpa, hamem])
    · intro pid'
      by_cases hpe : pid' = pid
      · subst hpe
        constructor
        · rintro ⟨r, hr, hrid⟩
          rcases htpcases with ⟨hTB, r0, hr0id, htpeq⟩ | ⟨hnTB, htpeq⟩
          · rw [htpeq, List.mem_append] at hr
            rcases hr with hr | hr
            · obtain ⟨p, hp, hpid, _, _⟩ := (ihiff pid').mp ⟨r, hr, hrid⟩
              exact absurd hpid (hfresh p hp)
            · refine ⟨⟨pid', 0, chid, cid, ptype.get_trader_pubkey,
                .Pending, ptype⟩, ?_, rfl, hTB, Or.inl rfl⟩
              rw [hprot]
              simp
          · rw [htpeq] at hr
            obtain ⟨p, hp, hpid, _, _⟩ := (ihiff pid').mp ⟨r, hr, hrid⟩
            exact absurd hpid (hfresh p hp)
        · rintro ⟨p, hp, hpid, hTB, hPF⟩
          rw [hprot, List.mem_append] at hp
          rcases hp with hp | hp
          · exact absurd hpid (hfresh p hp)
          · simp only [List.mem_singleton] at hp
            subst hp
            rcases htpcases with ⟨_, r0, hr0id, htpeq⟩ | ⟨hnTB, _⟩
            · refine ⟨r0, ?_, hr0id⟩
              rw [htpeq]
              simp
            · rw [hnTB] at hTB
              exact absurd hTB (by simp)
      · have hrhs : (∃ p ∈ db'.protocols, p.id = pid' ∧
            p.protocol_type.trade_bearing = true ∧
            (p.protocol_state = .Pending ∨ p.protocol_state = .Failed)) ↔
            (∃ p ∈ dbx.protocols, p.id = pid' ∧
            p.protocol_type.trade_bearing = true ∧
            (p.protocol_state = .Pending ∨ p.protocol_state = .Failed)) := by
          rw [hprot]
          constructor
          · rintro ⟨p, hp, hpid, hTB, hPF⟩
            rw [List.mem_append] at hp
            rcases hp with hp | hp
            · exact ⟨p, hp, hpid, hTB, hPF⟩
            · simp only [List.mem_singleton] at hp
              subst hp
              exact absurd hpid.symm hpe
          · rintro ⟨p, hp, hpid, hTB, hPF⟩
            exact ⟨p, by rw [List.mem_append]; exact Or.inl hp, hpid, hTB, hPF⟩
        have hlhs : (∃ r ∈ db'.trade_params, r.protocol_id = pid') ↔
            (∃ r ∈ dbx.trade_params, r.protocol_id = pid') := by
          rcases htpcases with ⟨_, r0, hr0id, htpeq⟩ | ⟨_, htpeq⟩
          · rw [htpeq]
            constructor
            · rintro ⟨r, hr, hrid⟩
              rw [List.mem_append] at hr
              rcases hr with hr | hr
              · exact ⟨r, hr, hrid⟩
              · simp only [List.mem_singleton] at hr
                subst hr
                rw [hr0id] at hrid
                exact absurd hrid.symm hpe
            · rintro ⟨r, hr, hrid⟩
              exact ⟨r, by rw [List.mem_append]; exact Or.inl hr, hrid⟩
          · rw [htpeq]
        rw [hlhs, hrhs]
        exact ihiff pid'
  | fail pid hreach hguard ih =>
    obtain ⟨ihn, ihiff⟩ := ih
    rename_i dbx
    have hbody : fail_dlc_protocol pid dbx =
        set_dlc_protocol_state_to_failed dbx pid := rfl
    constructor
    · rw [hbody, set_failed_ids]
      exact ihn
    · intro pid'
      rw [hbody]
      have htpeq : (set_dlc_protocol_state_to_failed dbx pid).trade_params =
          dbx.trade_params := rfl
      rw [htpeq]
      by_cases hpe : pid' = pid
      · subst hpe
        rw [set_failed_row_guard dbx pid' ihn hguard]
        exact ihiff pid'
      · rw [set_failed_row_iff dbx pid pid' hpe]
        exact ihiff pid'
  | finish pid tid cid chid s hreach ih =>
    obtain ⟨ihn, ihiff⟩ := ih
    rename_i dbx
    rcases finish_db_shape F pid tid cid chid s dbx with hsame |
      ⟨dlc, C, hget, hprot, hcase⟩
    · rw [hsame]
      exact ⟨ihn, ihiff⟩
    · obtain ⟨hdlcmem, hdlcid⟩ := get_dlc_protocol_mem dbx pid dlc hget
      constructor
      · rw [hprot, set_success_ids]
        exact ihn
      · intro pid'
        rcases hcase with ⟨hTB, htp⟩ | ⟨hnTB, htp⟩
        · by_cases hpe : pid' = pid
          · subst hpe
            constructor
            · rintro ⟨r, hr, hrid⟩
              rw [htp, List.mem_filter] at hr
              have hr2 := hr.2
              simp only [decide_eq_true_eq] at hr2
              exact absurd hrid hr2
            · intro hRHS
              rw [hprot] at hRHS
              exact absurd hRHS
                (set_success_row_not_pending dbx pid' C chid)
          · have hlhs : (∃ r ∈ (finish_dlc_protocol F pid tid cid chid s
                dbx).db.trade_params, r.protocol_id = pid') ↔
                (∃ r ∈ dbx.trade_params, r.protocol_id = pid') := by
              rw [htp]
              constructor
              · rintro ⟨r, hr, hrid⟩
                exact ⟨r, (List.mem_filter.mp hr).1, hrid⟩
              · rintro ⟨r, hr, hrid⟩
                refine ⟨r, List.mem_filter.mpr ⟨hr, ?_⟩, hrid⟩
                simp only [decide_eq_true_eq]
                rw [hrid]
                exact hpe
            rw [hlhs, hprot, set_success_row_iff dbx pid C chid pid' hpe]
            exact ihiff pid'
        · by_cases hpe : pid' = pid
          · subst hpe
            constructor
            · rintro ⟨r, hr, hrid⟩
              rw [htp] at hr
              obtain ⟨p, hp, hpid, hpTB, _⟩ := (ihiff pid').mp ⟨r, hr, hrid⟩
              have hpdlc : p = dlc :=
                List.inj_on_of_nodup_map ihn hp hdlcmem (by rw [hpid, hdlcid])
              rw [hpdlc, hnTB] at hpTB
              exact absurd hpTB (by simp)
            · intro hRHS
              rw [hprot] at hRHS
              exact absurd hRHS
                (set_success_row_not_pending dbx pid' C chid)
          · have hlhs : (∃ r ∈ (finish_dlc_protocol F pid tid cid chid s
                dbx).db.trade_params, r.protocol_id = pid') ↔
                (∃ r ∈ dbx.trade_params, r.protocol_id = pid') := by
              rw [htp]
            rw [hlhs, hprot, set_success_row_iff dbx pid C chid pid' hpe]
            exact ihiff pid'

end TenTenOne

namespace TenTenOne

/-- Counterexample to C7 as stated: start an `Open` protocol (the pending
trade-params row is inserted), then fail it. The row is *not* deleted by
`fail_dlc_protocol` — it is still present while the protocol is `Failed`,
not `Pending` — so "a pending TradeParams row exists exactly when the
trade-bearing protocol is still Pending" is false in this reachable
state. -/
theorem c7_counterexample :
    start_dlc_protocol pid0 none 77 9 (.Open tp0) Db.empty = .ok db_start0 ∧
    (fail_dlc_protocol pid0 db_start0).trade_params = [tp0] ∧
    ¬ ((∃ r ∈ (fail_dlc_protocol pid0 db_start0).trade_params,
          r.protocol_id = pid0) ↔
       (∃ p ∈ (fail_dlc_protocol pid0 db_start0).protocols, p.id = pid0 ∧
          p.protocol_type.trade_bearing = true ∧
          p.protocol_state = DlcProtocolState.Pending)) :=
  ⟨rfl, rfl, by decide⟩

/-- Witness for the amended C7: the invariant holds in the concrete
reachable state obtained by starting an `Open` protocol and failing it. -/
theorem c7_witness : DbInvariant (fail_dlc_protocol pid0 db_start0) :=
  c7_pending_trade_params_invariant F0 _
    (Reachable.fail pid0
      (Reachable.start pid0 none 77 9 (.Open tp0) Reachable.init rfl)
      ⟨proto0, by simp [db_start0], rfl, rfl⟩)

end TenTenOne

namespace TenTenOne

theorem round_dp_scale_le (d : Decimal) (dp : ℕ) :
    (d.round_dp dp).scale ≤ dp := by
  unfold Decimal.round_dp
  split
  next h => exact h
  next h => exact le_refl dp

theorem val_hundred_int (d : Decimal) (hs : d.scale ≤ 2) :
    ∃ z : ℤ, d.val * 100 = (z : ℚ) := by
  refine ⟨d.mantissa * 10 ^ (2 - d.scale), ?_⟩
  unfold Decimal.val
  rw [div_mul_eq_mul_div, div_eq_iff (pow_ne_zero _ (by norm_num))]
  push_cast
  rw [mul_assoc, ← pow_add, Nat.sub_add_cancel hs]
  norm_num

/-- C10: `orders::insert` persists and returns the submitted order with
`taken` initialised to `false` and with price and quantity rounded to two
decimal places (`round_dp(2)`, then narrowed to the `f32` column, idealised
here as the exact rational value); any submitted price or quantity with
more than two decimal places (its value times 100 is not an integer) is
changed by the rounding, hence not stored exactly. -/
theorem c10_insert_rounds_two_dp (orders : List OrderRow)
    (o : OrderbookNewOrder) :
    (orders_insert orders o).2.price = (o.price.round_dp 2).val ∧
    (orders_insert orders o).2.quantity = (o.quantity.round_dp 2).val ∧
    (orders_insert orders o).2.taken = false ∧
    (orders_insert orders o).1 = orders ++
      [{ id := orders.length, price := (o.price.round_dp 2).val,
         maker_id := o.trader_id, taken := false, direction := o.direction,
         quantity := (o.quantity.round_dp 2).val,
         order_type := o.order_type }] ∧
    (∀ d : Decimal, ¬ (100 * d.mantissa) % ((10 : ℤ) ^ d.scale) = 0 →
      (d.round_dp 2).val ≠ d.val) := by
  refine ⟨rfl, rfl, rfl, rfl, ?_⟩
  intro d hd heq
  obtain ⟨z, hz⟩ := val_hundred_int (d.round_dp 2) (round_dp_scale_le d 2)
  rw [heq] at hz
  unfold Decimal.val at hz
  rw [div_mul_eq_mul_div, div_eq_iff (pow_ne_zero _ (by norm_num))] at hz
  have h2 : d.mantissa * 100 = z * 10 ^ d.scale := by exact_mod_cast hz
  apply hd
  rw [mul_comm, h2]
  exact Int.mul_emod_left z _

/-- Witness for C10: the concrete order `o0` with price `30000.555`; its
value times 100 is not an integer, the converted row has `taken = false`,
and the rounding changes the stored value. -/
theorem c10_witness :
    ¬ (100 * (30000555 : ℤ)) % ((10 : ℤ) ^ 3) = 0 ∧
    ((⟨30000555, 3⟩ : Decimal).round_dp 2).val ≠
      (⟨30000555, 3⟩ : Decimal).val ∧
    (orders_insert [] o0).2.taken = false :=
  ⟨by decide,
    (c10_insert_rounds_two_dp [] o0).2.2.2.2 ⟨30000555, 3⟩ (by decide),
    (c10_insert_rounds_two_dp [] o0).2.2.1⟩

end TenTenOne
